import Mathlib

/-!
Shallow embedding of the moderation core of the `botv2` Telegram bot
(`src/utils.py`, `src/handlers.py`, `src/database.py`) and proofs about it.

Conventions of the embedding:
* Python strings are modelled as `List Char` (with `String` wrappers at the
  interface); character classes (`isalpha`, `isalnum`, `\w`, `\s`) are
  modelled by Lean's ASCII predicates `Char.isAlpha`, `Char.isAlphanum`,
  which agree with Python on ASCII text (all inputs evaluated here are
  ASCII; keyword lists are carried verbatim).
* Python float ratio comparisons (`x / n > 0.8` etc.) are modelled as the
  exact rational comparison (`5 * x > 4 * n`); no input here sits on the
  representability boundary.
* `re.search`/`re.findall` for the handful of concrete patterns of the
  source are modelled by direct backtracking scanners that return the same
  matches as Python's engine on those patterns.
* `async` calls to the platform and the store are modelled by explicit
  inputs (`ApiResult` fields of an environment) and by returning the list
  of store writes the call would perform.
-/

namespace BotV2

/-- Python `\w` over ASCII: letters, digits, underscore. -/
def isWordChar (c : Char) : Bool :=
  c.isAlphanum || c == '_'

/-- Python `\s` (ASCII): space, tab, newline, carriage return, vertical tab, form feed. -/
def isPySpace (c : Char) : Bool :=
  c == ' ' || c == '\t' || c == '\n' || c == '\r' || c == '\x0b' || c == '\x0c'

/-- Python `str.lower()` on ASCII text. -/
def pyLower (l : List Char) : List Char :=
  l.map Char.toLower

/-- Python `str.strip()`: drop whitespace at both ends. -/
def pyStrip (l : List Char) : List Char :=
  (l.dropWhile isPySpace).reverse.dropWhile isPySpace |>.reverse

/-- Python `str.lstrip('@')`: drop every leading `'@'`. -/
def lstripAt (l : List Char) : List Char :=
  l.dropWhile (· == '@')

/-- `m pat l`: does `pat` start the text `l`?  Used to build `in`-substring
and `re.search` style scans. -/
def startsL (pat l : List Char) : Bool :=
  pat.isPrefixOf l

/-- Search a matcher over every suffix of the text, as `re.search` does:
true iff the matcher accepts at some position. -/
def reSearch (m : List Char → Bool) : List Char → Bool
  | [] => m []
  | c :: r => m (c :: r) || reSearch m (r)

/-- Python `sub in text`: substring occurrence. -/
def isSubl (pat l : List Char) : Bool :=
  reSearch (startsL pat) l

/-- Python `str.endswith`. -/
def endsL (pat l : List Char) : Bool :=
  pat.isSuffixOf l

/-- Python `str.split()`: split on whitespace runs, no empty parts. -/
def pySplit (l : List Char) : List (List Char) :=
  (l.splitOnP isPySpace).filter (· ≠ [])

/-- `' '.join(ws)`. -/
def joinSpace (ws : List (List Char)) : List Char :=
  List.intercalate [' '] ws

/-! ## `BotHandlers.is_valid_telegram_username` (src/handlers.py:342-375) -/

/-- `'__' in username`. -/
def hasDoubleUnderscore (l : List Char) : Bool :=
  isSubl ['_', '_'] l

/-- The rule block of `is_valid_telegram_username` applied to the
already-`lstrip`ped handle. -/
def validCore (l : List Char) : Bool :=
  if l.length < 5 || 32 < l.length then false
  else if !(match l.head? with | some c => c.isAlpha | none => false) then false
  else if !(match l.getLast? with | some c => c.isAlphanum | none => false) then false
  else if !(l.all fun c => c.isAlphanum || c == '_') then false
  else if hasDoubleUnderscore l then false
  else true

/-- `BotHandlers.is_valid_telegram_username`: `if not username: return False`,
then `username = username.lstrip('@')`, then the five rules. -/
def is_valid_telegram_username (s : String) : Bool :=
  if s.isEmpty then false
  else validCore (lstripAt s.data)

/-- The validator lifted to Python's optional argument: `None` is falsy. -/
def is_valid_telegram_username_opt : Option String → Bool
  | none => false
  | some s => is_valid_telegram_username s

/-! ## Message model (aiogram `Message` / `MessageEntity`, the fields the core reads) -/

/-- One structured annotation of a message (`MessageEntity`). -/
structure Entity where
  etype : String
  offset : Nat
  length : Nat
deriving DecidableEq

/-- The slice of an aiogram `Message` that the analyzers read. -/
structure Msg where
  text : Option String := none
  caption : Option String := none
  entities : List Entity := []
  caption_entities : List Entity := []
deriving DecidableEq

/-- Python truthiness for an optional string field: `None` and `""` are falsy. -/
def optStr (o : Option String) : String := o.getD ""

/-- `message.text or message.caption or ""`. -/
def textOrCaption (m : Msg) : String :=
  if !(optStr m.text).isEmpty then optStr m.text else optStr m.caption

/-! ## Regex scanners

The scanners below replay Python's backtracking engine on the specific
patterns of `src/utils.py`, as lists of matches (`re.findall`) or a Boolean
(`re.search`). -/

/-- The `@`-mention pattern `@([a-zA-Z][a-zA-Z0-9_]{2,31})(?=\s|$|[^\w])`
tried at the head of `l`: a greedy word-character run of total length 3..32
starting with a letter; the lookahead always holds at the end of a maximal
run, and runs longer than 32 never match (every shorter split is followed by
a word character).  Returns the group and the rest of the text. -/
def matchMentionA (l : List Char) : Option (List Char × List Char) :=
  match l with
  | '@' :: rest =>
    match rest with
    | c :: _ =>
      if c.isAlpha then
        let run := rest.takeWhile isWordChar
        if 3 ≤ run.length && run.length ≤ 32 then some (run, rest.drop run.length)
        else none
      else none
    | [] => none
  | _ => none

/-- The second mention pattern `(?<!\w)@([a-zA-Z][a-zA-Z0-9_]{2,31})` tried
at the head of `l` with `prevW` the word-ness of the preceding character:
no trailing lookahead, so a maximal run of length ≥ 3 yields its first
(up to) 32 characters. -/
def matchMentionB (prevW : Bool) (l : List Char) : Option (List Char × List Char) :=
  match l with
  | '@' :: rest =>
    if prevW then none
    else
      match rest with
      | c :: _ =>
        if c.isAlpha then
          let run := rest.takeWhile isWordChar
          if 3 ≤ run.length then some (run.take 32, rest.drop (min run.length 32))
          else none
        else none
      | [] => none
  | _ => none

/-- `re.findall` driver for pattern A: leftmost matches, resuming after each
match; fuelled by the text length (every step consumes at least one
character). -/
def scanMentionA : Nat → List Char → List (List Char)
  | 0, _ => []
  | _ + 1, [] => []
  | fuel + 1, c :: r =>
    match matchMentionA (c :: r) with
    | some (m, rest) => m :: scanMentionA fuel rest
    | none => scanMentionA fuel r

/-- `re.findall` driver for pattern B, threading the word-ness of the
previous character for the lookbehind. -/
def scanMentionB : Nat → Bool → List Char → List (List Char)
  | 0, _, _ => []
  | _ + 1, _, [] => []
  | fuel + 1, prevW, c :: r =>
    match matchMentionB prevW (c :: r) with
    | some (m, rest) => m :: scanMentionB fuel true rest
    | none => scanMentionB fuel (isWordChar c) r

def findallMentionA (l : List Char) : List (List Char) := scanMentionA l.length l

def findallMentionB (l : List Char) : List (List Char) := scanMentionB l.length false l

/-- Character class `[a-zA-Z0-9-]` of the generic domain pattern. -/
def isDomChar (c : Char) : Bool := c.isAlphanum || c == '-'

/-- The trailing `\b` of the generic domain pattern: the next character is
absent or not a word character. -/
def boundaryAfter (l : List Char) : Bool :=
  match l with | [] => true | d :: _ => !isWordChar d

/-- The `\.[a-zA-Z]{2,}\b` part of the generic domain pattern, applied to
what follows the maximal `[a-zA-Z0-9-]+` run `a`. -/
def matchDomainTail (a rest0 : List Char) : Option (List Char × List Char) :=
  match rest0 with
  | x :: rest2 =>
    if x = '.' then
      let b := rest2.takeWhile (·.isAlpha)
      if 2 ≤ b.length && boundaryAfter (rest2.drop b.length) then
        some (a ++ '.' :: b, rest2.drop b.length)
      else none
    else none
  | [] => none

/-- The generic domain pattern `\b[a-zA-Z0-9-]+\.[a-zA-Z]{2,}\b` tried at the
head of `l` (`prevW`: word-ness of the preceding character).  Backtracking
collapses: the first class cannot match `'.'`, so only the maximal run can
precede the dot, and any shorter letter run after the dot is followed by a
letter, so only the maximal run can close at a word boundary. -/
def matchDomain (prevW : Bool) (l : List Char) : Option (List Char × List Char) :=
  match l with
  | c :: _ =>
    if !isDomChar c then none
    else if (if isWordChar c then prevW else !prevW) then none
    else
      let a := l.takeWhile isDomChar
      matchDomainTail a (l.drop a.length)
  | [] => none

/-- `re.findall` driver for the generic domain pattern. -/
def scanDomain : Nat → Bool → List Char → List (List Char)
  | 0, _, _ => []
  | _ + 1, _, [] => []
  | fuel + 1, prevW, c :: r =>
    match matchDomain prevW (c :: r) with
    | some (m, rest) => m :: scanDomain fuel true rest
    | none => scanDomain fuel (isWordChar c) r

/-- `re.findall(domain_pattern, text)` of `has_links` (src/utils.py:45-46). -/
def findallDomain (l : List Char) : List (List Char) := scanDomain l.length false l

/-! ### The `url_patterns` list (src/utils.py:26-38), searched with
`re.IGNORECASE`; all matchers run on the lowercased text. -/

/-- Match a literal, then continue. -/
def litTok : List Char → (List Char → Bool) → List Char → Bool
  | [], k, l => k l
  | c :: cs, k, l =>
    match l with
    | d :: r => c == d && litTok cs k r
    | [] => false

/-- Optional single character (`?`), with backtracking. -/
def optTok (p : Char → Bool) (k : List Char → Bool) (l : List Char) : Bool :=
  k l || (match l with | c :: r => p c && k r | [] => false)

/-- Head of the remaining text satisfies `p` (a final `X+` needs one `X`). -/
def headTok (p : Char → Bool) (l : List Char) : Bool :=
  match l with | c :: _ => p c | [] => false

/-- Kleene star with backtracking. -/
def starTok (p : Char → Bool) (k : List Char → Bool) : List Char → Bool
  | [] => k []
  | c :: r => k (c :: r) || (p c && starTok p k r)

/-- The character class of the scheme-qualified URL pattern:
`[a-zA-Z]|[0-9]|[$-_@.&+]|[!*\\(\\),]|%..` (`%` lies inside `$`-`_`). -/
def isUrlBodyChar (c : Char) : Bool :=
  c.isAlpha || c.isDigit || ('$' ≤ c && c ≤ '_') ||
  c == '@' || c == '.' || c == '&' || c == '+' ||
  c == '!' || c == '*' || c == '\\' || c == '(' || c == ')' || c == ','

/-- `https?://(...)+` tried at the head of the (lowercased) text. -/
def matchHttp (l : List Char) : Bool :=
  litTok "http".data (optTok (· == 's') (litTok "://".data (headTok isUrlBodyChar))) l

/-- The TLD allow-list of the second pattern. -/
def tldNames : List String :=
  ["com", "org", "net", "edu", "gov", "mil", "int", "co", "uz", "ru",
   "de", "fr", "uk", "it", "es", "au", "jp", "cn", "in", "br"]

/-- `\b[a-zA-Z0-9][a-zA-Z0-9-]*[a-zA-Z0-9]*\.(?:com|...)\b` at the head of
the text, `prevW` the word-ness of the preceding character. -/
def matchTldDomain (prevW : Bool) (l : List Char) : Bool :=
  match l with
  | c :: r =>
    !prevW && c.isAlphanum &&
      starTok (fun d => d.isAlphanum || d == '-')
        (starTok (·.isAlphanum)
          (fun l2 =>
            match l2 with
            | '.' :: r2 =>
              tldNames.any fun t =>
                litTok t.data (fun l3 =>
                  match l3 with | [] => true | d :: _ => !isWordChar d) r2
            | _ => false)) r
  | [] => false

/-- `(?:instagram\.com|facebook\.com|twitter\.com|youtube\.com|tiktok\.com)/[a-zA-Z0-9_.]+`. -/
def matchSocial (l : List Char) : Bool :=
  ["instagram.com/", "facebook.com/", "twitter.com/", "youtube.com/", "tiktok.com/"].any
    fun s => litTok s.data (headTok fun c => isWordChar c || c == '.') l

/-- `\b(?:bit\.ly|tinyurl\.com|short\.link|s\.id)/[a-zA-Z0-9]+`. -/
def matchShortener (prevW : Bool) (l : List Char) : Bool :=
  !prevW &&
    ["bit.ly/", "tinyurl.com/", "short.link/", "s.id/"].any
      fun s => litTok s.data (headTok (·.isAlphanum)) l

/-- `re.search` driver for matchers with a word-boundary/lookbehind on the
preceding character. -/
def searchWithPrev : Nat → (Bool → List Char → Bool) → Bool → List Char → Bool
  | 0, _, _, _ => false
  | _ + 1, m, prevW, [] => m prevW []
  | fuel + 1, m, prevW, c :: r => m prevW (c :: r) || searchWithPrev fuel m (isWordChar c) r

/-- The `for pattern in url_patterns: re.search(pattern, text, re.IGNORECASE)`
loop, on the lowercased text. -/
def urlPatternsMatch (low : List Char) : Bool :=
  reSearch matchHttp low ||
  searchWithPrev (low.length + 1) matchTldDomain false low ||
  reSearch (litTok "t.me/".data (headTok isWordChar)) low ||
  reSearch (litTok "telegram.me/".data (headTok isWordChar)) low ||
  reSearch matchSocial low ||
  searchWithPrev (low.length + 1) matchShortener false low

/-! ## `MessageAnalyzer.has_links` (src/utils.py:7-59) -/

/-- The abbreviation stoplist `false_positives` of `has_links`, verbatim. -/
def falsePositives : List (List Char) :=
  ["vs.", "etc.", "inc.", "ltd.", "co.", "mr.", "mrs.", "dr.", "prof.",
   "jan.", "feb.", "mar.", "apr.", "may.", "jun.", "jul.", "aug.", "sep.",
   "oct.", "nov.", "dec.",
   "mon.", "tue.", "wed.", "thu.", "fri.", "sat.", "sun."].map String.data

/-- `entity.type in ['url', 'text_link']` over an entity list. -/
def entitiesHaveUrl (es : List Entity) : Bool :=
  es.any fun e => e.etype == "url" || e.etype == "text_link"

/-- The trailing stoplist loop: `for domain in potential_domains: if
domain.lower() not in false_positives: return True` / `return False`. -/
def anyDomainPasses (domains : List (List Char)) : Bool :=
  domains.any fun d => !(decide (pyLower d ∈ falsePositives))

/-- `MessageAnalyzer.has_links`. -/
def has_links (m : Msg) : Bool :=
  if (optStr m.text).isEmpty && (optStr m.caption).isEmpty then false
  else
    let text := (textOrCaption m).data
    if entitiesHaveUrl m.entities then true
    else if entitiesHaveUrl m.caption_entities then true
    else if urlPatternsMatch (pyLower text) then true
    else anyDomainPasses (findallDomain text)

/-! ## `MessageAnalyzer.extract_mentions` (src/utils.py:62-119) -/

/-- Method 1: harvest `mention`-type entities by offset/length slices,
lowercased, `lstrip('@')`ed, keeping length ≥ 3 and de-duplicating. -/
def entityMentions (t : List Char) (es : List Entity) : List (List Char) → List (List Char) :=
  fun acc =>
    es.foldl (fun acc e =>
      if e.etype == "mention" then
        let mention := (t.drop e.offset).take e.length
        let username := pyLower (lstripAt mention)
        if username ≠ [] && 3 ≤ username.length && username ∉ acc then acc ++ [username]
        else acc
      else acc) acc

/-- Method 2: append the lowercased regex matches that are not yet present. -/
def addRegexMentions (found : List (List Char)) (acc : List (List Char)) : List (List Char) :=
  found.foldl (fun acc m =>
    let ml := pyLower m
    if ml ∉ acc then acc ++ [ml] else acc) acc

/-- `re.match(r'^[a-zA-Z][a-zA-Z0-9_]*$', clean_mention)`. -/
def mentionShape (l : List Char) : Bool :=
  match l with
  | c :: r => c.isAlpha && r.all isWordChar
  | [] => false

/-- Method 3: cleanup and validation of the collected candidates. -/
def validateMentions (ms : List (List Char)) : List (List Char) :=
  ms.filterMap fun mention =>
    let clean := pyLower (pyStrip mention)
    if clean = [] || clean.length < 3 then none
    else if !mentionShape clean then none
    else if 32 < clean.length then none
    else some clean

/-- `MessageAnalyzer.extract_mentions`. -/
def extract_mentions (m : Msg) : List String :=
  let t := (textOrCaption m).data
  let acc := entityMentions t (m.entities ++ m.caption_entities) []
  let acc := addRegexMentions (findallMentionA t) acc
  let acc := addRegexMentions (findallMentionB t) acc
  (validateMentions acc).map fun l => String.mk l

/-! ## `MessageAnalyzer.is_potential_ad` (src/utils.py:122-226) -/

/-- `strong_ad_keywords`, verbatim (each hit scores +2). -/
def strongAdKeywords : List (List Char) :=
  ["buy now", "click here", "limited time", "special offer", "act now",
   "earn money online", "work from home", "make money fast", "business opportunity",
   "get rich", "investment opportunity", "guaranteed profit", "no risk money",
   "free money", "easy money", "passive income", "financial freedom",
   "купить сейчас", "заработать деньги", "бизнес возможность", "гарантированная прибыль",
   "легкие деньги", "работа на дому", "пассивный доход", "финансовая свобода",
   "hozir xarid qiling", "oson pul", "kafolatlangan foyda", "biznes imkoniyati",
   "uyda ishlash", "tez daromad", "pul topish",
   "bitcoin", "cryptocurrency", "forex", "trading signals", "mlm", "pyramid",
   "referral program", "affiliate marketing", "network marketing"].map String.data

/-- `medium_ad_keywords`, verbatim (two or more distinct hits score +1). -/
def mediumAdKeywords : List (List Char) :=
  ["discount", "sale", "promo", "offer", "deal", "cheap", "free",
   "скидка", "акция", "распродажа", "дешево", "бесплатно",
   "chegirma", "aksiya", "arzon", "bepul"].map String.data

/-- `ord(char) > 127 or char in '...'`: every character of the literal emoji
string has a code point above 127, so the disjunct reduces to the code-point
test. -/
def isEmojiish (c : Char) : Bool := 127 < c.toNat

/-- The letters of the (already lowercased) text: `[c for c in text if c.isalpha()]`. -/
def lettersOf (t : List Char) : List Char := t.filter (·.isAlpha)

/-- `sum(1 for char in letters if char.isupper())`. -/
def upperCount (t : List Char) : Nat := t.countP (·.isUpper)

/-- Signal 4, the capitalization check, on the scorer's working text:
`caps_ratio > 0.8` is the exact comparison `5 * caps > 4 * letters`. -/
def capsBonus (t : List Char) : Nat :=
  if 30 < t.length then
    let letters := lettersOf t
    if 10 < letters.length then
      if 4 * letters.length < 5 * upperCount letters then 1 else 0
    else 0
  else 0

/-- Signal 3, emoji density: for texts over 50 characters,
`emoji_ratio > 0.3` is the exact comparison `10 * emoji > 3 * len`. -/
def emojiBonus (t : List Char) : Nat :=
  if 50 < t.length then
    if 3 * t.length < 10 * (t.countP isEmojiish) then 1 else 0
  else 0

/-- Between `lo` and `hi` digits (`\d{lo,hi}`), then the continuation, with
backtracking over the count. -/
def digitsTok : Nat → Nat → (List Char → Bool) → List Char → Bool
  | 0, 0, k, l => k l
  | 0, hi + 1, k, l =>
    k l || (match l with | c :: r => c.isDigit && digitsTok 0 hi k r | [] => false)
  | _ + 1, 0, _, _ => false
  | lo + 1, hi + 1, k, l =>
    match l with | c :: r => c.isDigit && digitsTok lo hi k r | [] => false

/-- The separator class `[-.\s]` of the phone patterns. -/
def isSepChar (c : Char) : Bool := c == '-' || c == '.' || isPySpace c

/-- `\+?\d{1,3}[-.\s]?\(?\d{1,4}\)?[-.\s]?\d{1,4}[-.\s]?\d{1,9}` at the head. -/
def matchPhone1 : List Char → Bool :=
  optTok (· == '+') <| digitsTok 1 3 <| optTok isSepChar <| optTok (· == '(') <|
    digitsTok 1 4 <| optTok (· == ')') <| optTok isSepChar <|
      digitsTok 1 4 <| optTok isSepChar <| digitsTok 1 9 fun _ => true

/-- `\d{3,4}[-.\s]?\d{2,3}[-.\s]?\d{2,3}[-.\s]?\d{2,3}` at the head. -/
def matchPhone2 : List Char → Bool :=
  digitsTok 3 4 <| optTok isSepChar <| digitsTok 2 3 <| optTok isSepChar <|
    digitsTok 2 3 <| optTok isSepChar <| digitsTok 2 3 fun _ => true

/-- Signal 5's guard: `re.search` of either phone pattern. -/
def hasPhone (t : List Char) : Bool :=
  reSearch matchPhone1 t || reSearch matchPhone2 t

/-- Signal 6, long-text repetition: a 3-word sliding-window phrase longer
than 10 characters that recurs in the remaining words. -/
def repetitionBonus (t : List Char) : Nat :=
  if 100 < t.length then
    let words := pySplit t
    if 8 ≤ words.length then
      if (List.range (words.length - 5)).any (fun i =>
          let phrase := joinSpace ((words.drop i).take 3)
          let remaining := joinSpace (words.drop (i + 3))
          isSubl phrase remaining && 10 < phrase.length) then 1 else 0
    else 0
  else 0

/-- The accumulated `ad_score` of `is_potential_ad` on the working text
(`text.lower().strip()`, already known to have length ≥ 20). -/
def adScore (t : List Char) : Nat :=
  let s := 2 * strongAdKeywords.countP (fun k => isSubl k t)
  let s := s + (if 2 ≤ mediumAdKeywords.countP (fun k => isSubl k t) then 1 else 0)
  let s := s + emojiBonus t
  let s := s + capsBonus t
  let s := s + (if hasPhone t && decide (0 < s) then 1 else 0)
  s + repetitionBonus t

/-- `MessageAnalyzer.is_potential_ad`: score the working text and threshold
at 3. -/
def is_potential_ad (m : Msg) : Bool :=
  if (optStr m.text).isEmpty && (optStr m.caption).isEmpty then false
  else
    let text := pyStrip (pyLower (textOrCaption m).data)
    if text.length < 20 then false
    else decide (3 ≤ adScore text)

/-! ## `BotHandlers.check_user_in_chat_by_username` (src/handlers.py:377-500)

The `await`ed platform calls are modelled as pre-supplied results in a
`ChatEnv`; a raised exception is `ApiResult.err` carrying `str(e)`.  The
function's store side effects (`db.update_group_member`) are returned as the
list of upserts it performs. -/

/-- A platform call either returns a value or raises an error message. -/
inductive ApiResult (α : Type) where
  | ok : α → ApiResult α
  | err : String → ApiResult α
deriving DecidableEq

/-- The user payload of a chat member. -/
structure TgUser where
  id : Int
  username : Option String := none
  first_name : Option String := none
  last_name : Option String := none
deriving DecidableEq

/-- A chat member as returned by `get_chat_member`/`get_chat_administrators`. -/
structure ChatMember where
  status : String
  user : TgUser
deriving DecidableEq

/-- One `db.update_group_member(...)` call. -/
structure Upsert where
  group_id : Int
  user_id : Int
  username : Option String
  first_name : Option String
  last_name : Option String
  is_verified : Bool
deriving DecidableEq

/-- The platform responses one verification call would observe. -/
structure ChatEnv where
  memberLookup : ApiResult (Option ChatMember)
  administrators : ApiResult (List ChatMember)
  memberCount : ApiResult Nat

/-- `username.lstrip('@').lower()` at the top of the verifier. -/
def normalizeHandle (s : String) : String :=
  String.mk (pyLower (lstripAt s.data))

/-- The write recorded when a member is confirmed (`is_verified=True`). -/
def upsertOf (chat_id : Int) (m : ChatMember) : Upsert :=
  ⟨chat_id, m.user.id, m.user.username, m.user.first_name, m.user.last_name, true⟩

/-- `'user not found' in error_msg or 'bad request' in error_msg` on the
lowercased exception text: the platform's authoritative negative. -/
def isAuthoritativeNotFound (e : String) : Bool :=
  isSubl "user not found".data (pyLower e.data) ||
  isSubl "bad request".data (pyLower e.data)

/-- Method 2's scan of the administrator roster: the first administrator
whose (truthy) username equals the handle case-insensitively; `none` both
when the fetch failed and when no administrator matches. -/
def adminFind (adms : ApiResult (List ChatMember)) (username : String) : Option ChatMember :=
  match adms with
  | .ok l =>
    l.find? fun a =>
      match a.user.username with
      | some u => !u.isEmpty && (String.mk (pyLower u.data) == username)
      | none => false
  | .err _ => none

/-- The suspicious-substring screen of the 201..1000-member branch. -/
def looksLegitimate (username : String) : Bool :=
  decide (5 ≤ username.length) &&
  !endsL "_bot".data username.data &&
  !(["spam", "fake", "bot", "admin"].any fun s => isSubl s.data username.data) &&
  is_valid_telegram_username username

/-- Method 3, the group-size heuristic, entered once methods 1 and 2 were
inconclusive. -/
def sizeHeuristic (cnt : ApiResult Nat) (username : String) : Bool :=
  match cnt with
  | .ok member_count =>
    if !is_valid_telegram_username username then false
    else if member_count ≤ 200 then false
    else if member_count ≤ 1000 then looksLegitimate username
    else decide (5 ≤ username.length) && is_valid_telegram_username username
  | .err _ =>
    if is_valid_telegram_username username && decide (5 ≤ username.length) then true
    else false

/-- `BotHandlers.check_user_in_chat_by_username`: verdict plus the store
writes performed. -/
def check_user_in_chat_by_username (env : ChatEnv) (chat_id : Int) (username0 : String) :
    Bool × List Upsert :=
  let username := normalizeHandle username0
  match env.memberLookup with
  | .ok (some member) =>
    if member.status ≠ "kicked" ∧ member.status ≠ "left" then
      (true, [upsertOf chat_id member])
    else (false, [])
  | .ok none => (false, [])
  | .err e =>
    if isAuthoritativeNotFound e then (false, [])
    else
      match adminFind env.administrators username with
      | some admin => (true, [upsertOf chat_id admin])
      | none => (sizeHeuristic env.memberCount username, [])

/-! ## `Database.update_group_member` (src/database.py:102-111)

The `group_members` table keyed by its `(group_id, user_id)` primary key;
`INSERT OR REPLACE` with `updated_at = CURRENT_TIMESTAMP` replaces the row
with the same key.  The timestamp is an explicit `now` argument. -/

/-- One row of `group_members` minus its key. -/
structure MemberRow where
  username : Option String
  first_name : Option String
  last_name : Option String
  is_verified : Bool
  updated_at : Nat
deriving DecidableEq

/-- The `group_members` table. -/
def MemberTable := List ((Int × Int) × MemberRow)

/-- `INSERT OR REPLACE INTO group_members ... VALUES (..., CURRENT_TIMESTAMP)`. -/
def update_group_member (tbl : MemberTable) (group_id user_id : Int)
    (username first_name last_name : Option String) (is_verified : Bool)
    (now : Nat) : MemberTable :=
  ((group_id, user_id), ⟨username, first_name, last_name, is_verified, now⟩) ::
    tbl.filter fun r => r.1 ≠ (group_id, user_id)

/-- The rows a table holds for a key. -/
def rowsFor (tbl : MemberTable) (group_id user_id : Int) : List MemberRow :=
  (tbl.filter fun r => r.1 = (group_id, user_id)).map (·.2)

/-! ## The moderation decision engine
(`BotHandlers._process_group_message`, src/handlers.py:255-313)

The verdict-producing section after the sender upsert: settings are read,
then link check, mention check, ad check in order.  The two `await`ed
membership queries (`db.is_user_in_group`, `check_user_in_chat_by_username`)
are supplied as oracles. -/

/-- Per-group toggles (`group_settings` row, defaults all true). -/
structure GroupSettings where
  delete_join_leave : Bool := true
  delete_links : Bool := true
  delete_ads : Bool := true
deriving DecidableEq

/-- Reason attached to a deleted link message. -/
def linkReason : String := "guruhda link tarqatish taqiqlanadi"

/-- Reason attached to a deleted ad message. -/
def adReason : String := "reklama xabarlar taqiqlanadi"

/-- The reason listing the offending handles. -/
def mentionReason (invalid : List String) : String :=
  if invalid.length = 1 then
    "@" ++ invalid.headD "" ++
      " bu guruh a'zosi emas, begona foydalanuvchilarni mention qilish taqiqlanadi"
  else
    String.intercalate ", " (invalid.map ("@" ++ ·)) ++
      " bu guruh a'zolari emas, begona foydalanuvchilarni mention qilish taqiqlanadi"

/-- The mention loop: a mention ends up in `invalid_mentions` when it is at
least 3 characters, not in the group database, not found live in the chat,
and has a valid username shape (shorter or malformed candidates are
skipped). -/
def invalidMentions (mentions : List String) (isInGroup existsInChat : String → Bool) :
    List String :=
  mentions.filter fun mn =>
    decide (3 ≤ mn.length) && !isInGroup mn && !existsInChat mn &&
      is_valid_telegram_username mn

/-- The verdict of `_process_group_message`: `(should_delete, reason)`. -/
def evaluate (settings : GroupSettings) (m : Msg) (isInGroup existsInChat : String → Bool) :
    Bool × String :=
  if settings.delete_links && has_links m then (true, linkReason)
  else
    let mentionVerdict : Bool × String :=
      if !(optStr m.text).isEmpty || !(optStr m.caption).isEmpty then
        let invalid := invalidMentions (extract_mentions m) isInGroup existsInChat
        if invalid ≠ [] then (true, mentionReason invalid) else (false, "")
      else (false, "")
    if mentionVerdict.1 then mentionVerdict
    else if settings.delete_ads && is_potential_ad m then (true, adReason)
    else (false, "")

/-! # Spec-side predicates

These follow the wording of the specification (§4.1), to be compared with
the definitions above that follow the source. -/

/-- "stripping a leading `@`": remove one leading `'@'` when present. -/
def stripOneAt : List Char → List Char
  | '@' :: r => r
  | l => l

/-- §4.1's rule list for a (stripped) handle: length in [5, 32], first
character alphabetic, last character alphanumeric, every character
alphanumeric or underscore, no two consecutive underscores. -/
def SpecHandleRules (l : List Char) : Prop :=
  5 ≤ l.length ∧ l.length ≤ 32 ∧
  (∀ c, l.head? = some c → c.isAlpha = true) ∧
  (∀ c, l.getLast? = some c → c.isAlphanum = true) ∧
  (∀ c ∈ l, c.isAlphanum = true ∨ c = '_') ∧
  (∀ i, ¬(l[i]? = some '_' ∧ l[i + 1]? = some '_'))

/-! # Helper lemmas -/

theorem reSearch_eq_true_iff (m : List Char → Bool) (l : List Char) :
    reSearch m l = true ↔ ∃ i, i ≤ l.length ∧ m (l.drop i) = true := by
  induction l with
  | nil =>
    simp only [reSearch]
    constructor
    · intro h; exact ⟨0, Nat.le_refl _, h⟩
    · rintro ⟨i, hi, h⟩
      simpa [List.drop_nil] using h
  | cons c r ih =>
    simp only [reSearch, Bool.or_eq_true, ih]
    constructor
    · rintro (h | ⟨i, hi, h⟩)
      · exact ⟨0, Nat.zero_le _, h⟩
      · exact ⟨i + 1, by simpa using hi, by simpa using h⟩
    · rintro ⟨i, hi, h⟩
      cases i with
      | zero => exact Or.inl h
      | succ j => exact Or.inr ⟨j, by simpa using hi, by simpa using h⟩

theorem startsL_uu_iff (t : List Char) :
    startsL ['_', '_'] t = true ↔ ∃ u, t = '_' :: '_' :: u := by
  match t with
  | [] => simp [startsL, List.isPrefixOf]
  | [a] => simp [startsL, List.isPrefixOf]
  | a :: b :: u =>
    simp only [startsL, List.isPrefixOf, Bool.and_eq_true, beq_iff_eq, and_true]
    constructor
    · rintro ⟨rfl, rfl⟩; exact ⟨u, rfl⟩
    · rintro ⟨v, hv⟩
      cases hv
      exact ⟨rfl, rfl⟩

theorem hasDoubleUnderscore_iff (l : List Char) :
    hasDoubleUnderscore l = true ↔ ∃ i, l[i]? = some '_' ∧ l[i + 1]? = some '_' := by
  unfold hasDoubleUnderscore isSubl
  rw [reSearch_eq_true_iff]
  constructor
  · rintro ⟨i, hi, h⟩
    rw [startsL_uu_iff] at h
    obtain ⟨u, hu⟩ := h
    refine ⟨i, ?_, ?_⟩
    · have h0 := List.getElem?_drop l i 0
      rw [hu] at h0
      simpa using h0.symm
    · have h1 := List.getElem?_drop l i 1
      rw [hu] at h1
      simpa using h1.symm
  · rintro ⟨i, h1, h2⟩
    have hlen : i < l.length := by
      by_contra hge
      rw [List.getElem?_eq_none (by omega)] at h1
      exact Option.noConfusion h1
    refine ⟨i, Nat.le_of_lt hlen, ?_⟩
    rw [startsL_uu_iff]
    have e0 := List.getElem?_drop l i 0
    have e1 := List.getElem?_drop l i 1
    rcases hd : l.drop i with _ | ⟨a, _ | ⟨b, u⟩⟩ <;> rw [hd] at e0 e1
    · rw [show i + 0 = i from rfl] at e0
      rw [← e0] at h1
      exact Option.noConfusion h1
    · rw [← e1] at h2
      exact Option.noConfusion h2
    · have ha : a = '_' := by
        rw [show i + 0 = i from rfl] at e0
        rw [← e0] at h1
        simpa using h1
      have hb : b = '_' := by
        rw [← e1] at h2
        simpa using h2
      exact ⟨u, by rw [ha, hb]⟩

theorem validCore_iff (l : List Char) : validCore l = true ↔ SpecHandleRules l := by
  unfold validCore SpecHandleRules
  split_ifs with h1 h2 h3 h4 h5
  · simp only [false_iff]
    rintro ⟨hlo, hhi, -⟩
    simp only [Bool.or_eq_true, decide_eq_true_eq] at h1
    omega
  · simp only [false_iff]
    rintro ⟨hlo, -, hhead, -⟩
    cases l with
    | nil => simp at hlo
    | cons c r =>
      have := hhead c rfl
      simp only [List.head?_cons, Bool.not_eq_true'] at h2
      rw [h2] at this
      exact Bool.noConfusion this
  · simp only [false_iff]
    rintro ⟨hlo, -, -, hlast, -⟩
    cases hg : l.getLast? with
    | none =>
      rw [List.getLast?_eq_none_iff] at hg
      subst hg; simp at hlo
    | some c =>
      have := hlast c hg
      rw [hg] at h3
      simp only [Bool.not_eq_true'] at h3
      rw [h3] at this
      exact Bool.noConfusion this
  · simp only [false_iff]
    rintro ⟨-, -, -, -, hall, -⟩
    simp only [Bool.not_eq_true', List.all_eq_false] at h4
    obtain ⟨c, hc, hcf⟩ := h4
    rcases hall c hc with h | h
    · simp [h] at hcf
    · simp [h] at hcf
  · simp only [false_iff]
    rw [hasDoubleUnderscore_iff] at h5
    obtain ⟨i, hi1, hi2⟩ := h5
    rintro ⟨-, -, -, -, -, hnd⟩
    exact hnd i ⟨hi1, hi2⟩
  · simp only [true_iff]
    simp only [Bool.or_eq_true, decide_eq_true_eq, not_or, not_lt] at h1
    refine ⟨h1.1, h1.2, ?_, ?_, ?_, ?_⟩
    · intro c hc
      rw [hc] at h2
      simpa using h2
    · intro c hc
      rw [hc] at h3
      simpa using h3
    · intro c hc
      have hall : (l.all fun c => c.isAlphanum || c == '_') = true := by
        revert h4
        cases l.all fun c => c.isAlphanum || c == '_' <;> simp
      rw [List.all_eq_true] at hall
      have h := hall c hc
      simp only [Bool.or_eq_true, beq_iff_eq] at h
      exact h
    · intro i hi
      have : hasDoubleUnderscore l = true := (hasDoubleUnderscore_iff l).mpr ⟨i, hi.1, hi.2⟩
      rw [this] at h5
      exact h5 rfl

/-- C7, the claim as written: the validator's result coincides with the
§4.1 rules applied after removing one leading `'@'`.  Refuted: the source
`lstrip`s every leading `'@'`, so `"@@abcde"` validates although its
one-strip form `"@abcde"` starts with `'@'`. -/
theorem validator_single_strip_cex :
    is_valid_telegram_username "@@abcde" = true ∧
      ¬ SpecHandleRules (stripOneAt "@@abcde".data) := by
  refine ⟨by decide, fun h => ?_⟩
  have h3 := h.2.2.1 '@' rfl
  exact Bool.noConfusion h3

/-- C7 amended: `None`/empty input is rejected, `"john_doe1"` is accepted,
and for every candidate the validator accepts exactly when the §4.1 rules
hold of the candidate with every leading `'@'` stripped. -/
theorem validator_matches_rules :
    is_valid_telegram_username_opt none = false ∧
    is_valid_telegram_username "john_doe1" = true ∧
      ∀ s : String, is_valid_telegram_username s = true ↔ SpecHandleRules (lstripAt s.data) := by
  refine ⟨rfl, by decide, fun s => ?_⟩
  unfold is_valid_telegram_username
  split_ifs with hs
  · rw [String.isEmpty_iff] at hs
    subst hs
    simp only [false_iff]
    rintro ⟨hlo, -⟩
    exact absurd hlo (by decide)
  · exact validCore_iff _

theorem filter_key_of_filter_ne (tbl : MemberTable) (k : Int × Int) :
    (tbl.filter fun r => r.1 ≠ k).filter (fun r => decide (r.1 = k)) = [] := by
  rw [List.filter_eq_nil_iff]
  intro a ha
  have hne := List.of_mem_filter ha
  simp only [decide_eq_true_eq] at hne ⊢
  exact hne

/-- C8: the `INSERT OR REPLACE` upsert is idempotent on the record set —
after a repeated identical call, the table holds exactly one row for the
`(group_id, user_id)` key, whose verified flag agrees with the state after
the first call. -/
theorem update_group_member_idempotent (tbl : MemberTable) (g uid : Int)
    (un fn ln : Option String) (v : Bool) (n1 n2 : Nat) :
    (rowsFor (update_group_member (update_group_member tbl g uid un fn ln v n1)
        g uid un fn ln v n2) g uid).length = 1 ∧
    (rowsFor (update_group_member (update_group_member tbl g uid un fn ln v n1)
        g uid un fn ln v n2) g uid).map (·.is_verified) =
      (rowsFor (update_group_member tbl g uid un fn ln v n1) g uid).map (·.is_verified) := by
  have key_rows : ∀ (t : MemberTable) (row : MemberRow),
      rowsFor (((g, uid), row) :: t.filter fun r => r.1 ≠ (g, uid)) g uid = [row] := by
    intro t row
    unfold rowsFor
    rw [List.filter_cons_of_pos (by simp), filter_key_of_filter_ne]
    rfl
  unfold update_group_member
  rw [key_rows, key_rows]
  exact ⟨rfl, rfl⟩

/-- C2: when the direct platform lookup raises an error the platform marks
as "user not found"/"bad request", verification returns `false` at once,
for every possible administrator roster and member count (tiers 3 and 4 are
not consulted), and performs no store write. -/
theorem authoritative_negative_short_circuits (chat_id : Int) (u e : String)
    (adm : ApiResult (List ChatMember)) (cnt : ApiResult Nat)
    (h : isAuthoritativeNotFound e = true) :
    check_user_in_chat_by_username ⟨ApiResult.err e, adm, cnt⟩ chat_id u = (false, []) := by
  unfold check_user_in_chat_by_username
  simp only [h, if_true]

theorem authoritative_negative_short_circuits_witness :
    check_user_in_chat_by_username
      ⟨ApiResult.err "Telegram server says - Bad Request: user not found",
       ApiResult.ok [⟨"administrator", ⟨11, some "ghost", none, none⟩⟩],
       ApiResult.ok 37⟩ (-100) "@ghost" = (false, []) :=
  authoritative_negative_short_circuits (-100) "@ghost" _ _ _ (by decide)

/-- C5, the claim as written: with tiers 1–3 inconclusive and the member
count unavailable, the verifier allegedly returns `true` for every handle.
Refuted: for the malformed handle `"ab"` it returns `false` (the source
gates the conservative allow on a valid handle of length ≥ 5). -/
theorem count_failure_deny_cex :
    check_user_in_chat_by_username
      ⟨ApiResult.err "timeout", ApiResult.err "boom", ApiResult.err "down"⟩
      1 "ab" = (false, []) := by
  decide

/-- C5 amended: when the direct lookup fails non-authoritatively, the
administrator roster yields no match, and the member count cannot be
retrieved, the verifier returns `true` exactly when the normalized handle
is syntactically valid and at least 5 characters long, and writes nothing
to the store. -/
theorem count_failure_conditional_allow (chat_id : Int) (u e ce : String)
    (adm : ApiResult (List ChatMember))
    (h1 : isAuthoritativeNotFound e = false)
    (h2 : adminFind adm (normalizeHandle u) = none) :
    check_user_in_chat_by_username ⟨ApiResult.err e, adm, ApiResult.err ce⟩ chat_id u =
      ((is_valid_telegram_username (normalizeHandle u) &&
        decide (5 ≤ (normalizeHandle u).length)), []) := by
  unfold check_user_in_chat_by_username
  simp only [h1, Bool.false_eq_true, if_false, h2, sizeHeuristic]
  split_ifs with h3
  · rw [h3]
  · simp only [Bool.not_eq_true] at h3
    rw [h3]

theorem count_failure_conditional_allow_witness :
    check_user_in_chat_by_username
      ⟨ApiResult.err "Request timed out", ApiResult.err "network down", ApiResult.err "also down"⟩
      9 "toto_z" = ((is_valid_telegram_username (normalizeHandle "toto_z") &&
        decide (5 ≤ (normalizeHandle "toto_z").length)), []) :=
  count_failure_conditional_allow 9 "toto_z" "Request timed out" "also down" _ (by decide) rfl

/-- C9: once tiers 1–3 were inconclusive and the group-size fallback
observes more than 200 members, an allowed mention performs no store
write — no verified record is persisted for the handle. -/
theorem large_group_allow_writes_nothing (chat_id : Int) (u e : String)
    (adm : ApiResult (List ChatMember)) (n : Nat)
    (h1 : isAuthoritativeNotFound e = false)
    (h2 : adminFind adm (normalizeHandle u) = none)
    (_h3 : 200 < n)
    (_h4 : (check_user_in_chat_by_username ⟨ApiResult.err e, adm, ApiResult.ok n⟩ chat_id u).1
            = true) :
    (check_user_in_chat_by_username ⟨ApiResult.err e, adm, ApiResult.ok n⟩ chat_id u).2 = [] := by
  unfold check_user_in_chat_by_username
  simp only [h1, Bool.false_eq_true, if_false, h2]

theorem large_group_allow_writes_nothing_witness :
    (check_user_in_chat_by_username
      ⟨ApiResult.err "timeout", ApiResult.err "no roster", ApiResult.ok 500⟩
      9 "gooduser1").2 = [] :=
  large_group_allow_writes_nothing 9 "gooduser1" "timeout" _ 500
    (by decide) rfl (by decide) (by decide)

/-- C1: with link filtering enabled and the link detector firing, the
decision engine deletes with the link-prohibition reason; the result is the
same for every membership oracle and never consults the mention or ad
checks — exactly one reason is reported. -/
theorem link_check_wins (settings : GroupSettings) (m : Msg)
    (isInGroup existsInChat : String → Bool)
    (h1 : settings.delete_links = true)
    (h2 : has_links m = true) :
    evaluate settings m isInGroup existsInChat = (true, linkReason) := by
  unfold evaluate
  rw [h1, h2]
  simp

theorem link_check_wins_witness :
    evaluate {} { text := some "check this out http://spam.example" }
      (fun _ => false) (fun _ => true) = (true, linkReason) :=
  link_check_wins {} _ _ _ rfl (by decide)

/-- C10: the primary mention regex places no constraint on the character
before `'@'`, so the `'@'` inside an email address yields the domain's
first label: a plain text with an email address and no entities returns
`["example"]`. -/
theorem email_yields_domain_label :
    extract_mentions { text := some "contact user@example.com" } = ["example"] := by
  decide

theorem uint32_le_iff_toNat_le (a b : UInt32) : a ≤ b ↔ a.toNat ≤ b.toNat := Iff.rfl

theorem isUpper_toNat_iff (c : Char) : c.isUpper = true ↔ 65 ≤ c.toNat ∧ c.toNat ≤ 90 := by
  simp only [Char.isUpper, Bool.and_eq_true, decide_eq_true_eq]
  exact Iff.rfl

theorem char_toNat_ofNat {n : Nat} (h : n < 55296) : (Char.ofNat n).toNat = n := by
  unfold Char.ofNat
  rw [dif_pos (Or.inl h)]
  rfl

theorem toLower_isUpper_false (c : Char) : (Char.toLower c).isUpper = false := by
  have heq : Char.toLower c =
      (if 65 ≤ c.toNat ∧ c.toNat ≤ 90 then Char.ofNat (c.toNat + 32) else c) := rfl
  rw [heq]
  split
  case isTrue hc =>
    rw [Bool.eq_false_iff]
    intro hu
    rw [isUpper_toNat_iff] at hu
    rw [char_toNat_ofNat (by omega)] at hu
    omega
  case isFalse hc =>
    rw [Bool.eq_false_iff]
    intro hu
    rw [isUpper_toNat_iff] at hu
    exact hc hu

theorem upperCount_pyLower_letters (t : List Char) :
    upperCount (lettersOf (pyLower t)) = 0 := by
  unfold upperCount
  rw [List.countP_eq_zero]
  intro a ha
  have ha2 : a ∈ pyLower t := List.mem_of_mem_filter ha
  unfold pyLower at ha2
  obtain ⟨c, -, rfl⟩ := List.mem_map.mp ha2
  simp [toLower_isUpper_false]

/-- C3: the capitalization signal is dead code.  The scorer lowercases the
text before measuring the uppercase ratio, so the caps bonus is 0 on every
lowercased text, and on an input that is over 30 characters, has more than
10 alphabetic characters, and is more than 80 % uppercase — where the
specification expects caps +1 on top of the strong keyword +2, total 3, an
ad verdict — the score stays at 2 and the message is not flagged. -/
theorem caps_signal_never_fires :
    (∀ t : List Char, capsBonus (pyLower t) = 0) ∧
    30 < "BUY NOW GREAT PRODUCTS FOR YOUR FAMILY".length ∧
    10 < (lettersOf "BUY NOW GREAT PRODUCTS FOR YOUR FAMILY".data).length ∧
    4 * (lettersOf "BUY NOW GREAT PRODUCTS FOR YOUR FAMILY".data).length <
      5 * upperCount (lettersOf "BUY NOW GREAT PRODUCTS FOR YOUR FAMILY".data) ∧
    adScore (pyStrip (pyLower "BUY NOW GREAT PRODUCTS FOR YOUR FAMILY".data)) = 2 ∧
    is_potential_ad { text := some "BUY NOW GREAT PRODUCTS FOR YOUR FAMILY" } = false := by
  refine ⟨fun t => ?_, by decide, by decide, by decide, by decide, by decide⟩
  have hz := upperCount_pyLower_letters t
  simp only [capsBonus]
  split_ifs with h1 h2 h3
  · rw [hz] at h3
    omega
  all_goals rfl

/-- C4, the claim as written: every handle returned by `extract_mentions`
allegedly satisfies the §4.1 validator.  Refuted: `"hi @abcd"` yields
`"abcd"`, which the validator rejects (length 4 < 5) — the extractor's
final pass checks only its own weaker shape, not the §4.1 rules. -/
theorem extract_mentions_not_revalidated_cex :
    extract_mentions { text := some "hi @abcd" } = ["abcd"] ∧
      is_valid_telegram_username "abcd" = false := by
  exact ⟨by decide, by decide⟩

/-- C4 amended: every handle returned by `extract_mentions` passes the
extractor's own validation — length in [3, 32], first character alphabetic,
every character alphanumeric or underscore (sub-3-character candidates are
discarded) — but not necessarily the §4.1 validator. -/
theorem extract_mentions_shape (m : Msg) (h : String)
    (hmem : h ∈ extract_mentions m) :
    3 ≤ h.length ∧ h.length ≤ 32 ∧ mentionShape h.data = true := by
  simp only [extract_mentions, List.mem_map] at hmem
  obtain ⟨l, hl, rfl⟩ := hmem
  rw [validateMentions, List.mem_filterMap] at hl
  obtain ⟨a, -, hfa⟩ := hl
  simp only at hfa
  split_ifs at hfa with h1 h2 h3
  have hl : pyLower (pyStrip a) = l := Option.some.inj hfa
  subst hl
  simp only [Bool.or_eq_true, decide_eq_true_eq, not_or, not_lt] at h1 h3
  refine ⟨h1.2, h3, ?_⟩
  simpa using h2

theorem extract_mentions_shape_witness :
    "abcd" ∈ extract_mentions { text := some "hi @abcd" } ∧
      3 ≤ "abcd".length ∧ "abcd".length ≤ 32 ∧ mentionShape "abcd".data = true :=
  ⟨by decide, extract_mentions_shape { text := some "hi @abcd" } "abcd" (by decide)⟩

theorem toLower_ne_dot {c : Char} (h : c.isAlpha = true) : c.toLower ≠ '.' := by
  intro heq
  have heq2 : (if 65 ≤ c.toNat ∧ c.toNat ≤ 90 then Char.ofNat (c.toNat + 32) else c) = '.' := heq
  split at heq2
  case isTrue hc =>
    have hv : (Char.ofNat (c.toNat + 32)).toNat = c.toNat + 32 := char_toNat_ofNat (by omega)
    rw [heq2] at hv
    rw [show ('.' : Char).toNat = 46 from rfl] at hv
    omega
  case isFalse hc =>
    rw [heq2] at h
    exact absurd h (by decide)

theorem matchDomainTail_shape {a rest0 m rest : List Char}
    (h : matchDomainTail a rest0 = some (m, rest)) :
    ∃ b, m = a ++ '.' :: b ∧ 2 ≤ b.length ∧ b.all (·.isAlpha) = true := by
  cases rest0 with
  | nil => exact Option.noConfusion h
  | cons x rest2 =>
    simp only [matchDomainTail] at h
    split_ifs at h with hx hcond
    have hm : (a ++ '.' :: rest2.takeWhile (·.isAlpha), rest2.drop
        (rest2.takeWhile (·.isAlpha)).length) = (m, rest) := Option.some.inj h
    refine ⟨rest2.takeWhile (·.isAlpha), ?_, ?_, ?_⟩
    · exact (congrArg Prod.fst hm).symm
    · simp only [Bool.and_eq_true, decide_eq_true_eq] at hcond
      exact hcond.1
    · rw [List.all_eq_true]
      intro d hd2
      exact List.mem_takeWhile_imp hd2

theorem matchDomain_token_shape {prevW : Bool} {l m rest : List Char}
    (h : matchDomain prevW l = some (m, rest)) :
    ∃ a b, m = a ++ '.' :: b ∧ 2 ≤ b.length ∧ b.all (·.isAlpha) = true := by
  cases l with
  | nil => exact Option.noConfusion h
  | cons c r =>
    simp only [matchDomain] at h
    split_ifs at h with h1 h2
    all_goals
      obtain ⟨b, hb⟩ := matchDomainTail_shape h
    all_goals
      exact ⟨_, b, hb⟩

theorem scanDomain_token_shape : ∀ (fuel : Nat) (prevW : Bool) (l d : List Char),
    d ∈ scanDomain fuel prevW l →
    ∃ a b, d = a ++ '.' :: b ∧ 2 ≤ b.length ∧ b.all (·.isAlpha) = true := by
  intro fuel
  induction fuel with
  | zero => intro _ _ _ h; exact absurd h (by simp [scanDomain])
  | succ n ih =>
    intro prevW l d h
    match l with
    | [] => exact absurd h (by simp [scanDomain])
    | c :: r =>
      rw [scanDomain] at h
      cases hm : matchDomain prevW (c :: r) with
      | none =>
        rw [hm] at h
        exact ih _ _ _ h
      | some pr =>
        obtain ⟨m, rest⟩ := pr
        rw [hm] at h
        rcases List.mem_cons.mp h with rfl | hmem
        · exact matchDomain_token_shape hm
        · exact ih _ _ _ hmem

theorem lowered_token_not_in_stoplist (a b : List Char)
    (hb : 2 ≤ b.length) (hall : b.all (·.isAlpha) = true) :
    pyLower (a ++ '.' :: b) ∉ falsePositives := by
  intro hmem
  have hfp : ∀ x ∈ falsePositives, x.getLast? = some '.' := by decide
  have hdot := hfp _ hmem
  have hbne : List.map Char.toLower b ≠ [] := by
    intro h0
    have hlen : b.length = 0 := by
      simpa only [List.length_map, List.length_nil] using congrArg List.length h0
    omega
  have hlast : (pyLower (a ++ '.' :: b)).getLast? = (List.map Char.toLower b).getLast? := by
    unfold pyLower
    rw [List.map_append, List.map_cons,
      @List.getLast?_append_of_ne_nil _ (List.map Char.toLower a)
        (Char.toLower '.' :: List.map Char.toLower b) (by simp),
      show Char.toLower '.' :: List.map Char.toLower b =
        [Char.toLower '.'] ++ List.map Char.toLower b from rfl,
      @List.getLast?_append_of_ne_nil _ [Char.toLower '.'] (List.map Char.toLower b) hbne]
  rw [hlast, List.getLast?_map] at hdot
  cases hg : b.getLast? with
  | none => rw [hg] at hdot; exact Option.noConfusion hdot
  | some x =>
    rw [hg] at hdot
    have hx : x.toLower = '.' := Option.some.inj hdot
    have hxb : x ∈ b := List.mem_of_getLast?_eq_some hg
    have hxa : x.isAlpha = true := List.all_eq_true.mp hall x hxb
    exact toLower_ne_dot hxa hx

/-- C6 amended: the stoplist never suppresses a match — every token the
generic `word.tld` pattern finds ends in a letter while every stoplist
entry ends in `'.'`, so whenever the generic pattern finds a token the
detector reports a link. -/
theorem generic_domain_match_reports_link (m : Msg)
    (h : findallDomain (textOrCaption m).data ≠ []) :
    has_links m = true := by
  have hpass : anyDomainPasses (findallDomain (textOrCaption m).data) = true := by
    rcases hd : findallDomain (textOrCaption m).data with _ | ⟨d, ds⟩
    · exact absurd hd h
    · have hdm : d ∈ findallDomain (textOrCaption m).data := by
        rw [hd]; exact List.mem_cons_self d ds
      obtain ⟨a, b, rfl, hb, hall⟩ := scanDomain_token_shape _ _ _ _ hdm
      unfold anyDomainPasses
      simp only [List.any_cons, Bool.or_eq_true]
      left
      simp only [Bool.not_eq_true', decide_eq_false_iff_not]
      exact lowered_token_not_in_stoplist a b hb hall
  simp only [has_links]
  split_ifs with hempty hent hcap hurl
  · exfalso
    apply h
    simp only [Bool.and_eq_true] at hempty
    have h1 := (String.isEmpty_iff _).mp hempty.1
    have h2 := (String.isEmpty_iff _).mp hempty.2
    have htc : textOrCaption m = "" := by
      unfold textOrCaption
      rw [h1, h2]
      simp
    rw [htc]
    rfl
  · rfl
  · rfl
  · rfl
  · exact hpass

theorem generic_domain_match_reports_link_witness :
    findallDomain (textOrCaption { text := some "visit foo.xyz today" }).data ≠ [] ∧
      has_links { text := some "visit foo.xyz today" } = true :=
  ⟨by decide, generic_domain_match_reports_link { text := some "visit foo.xyz today" }
    (by decide)⟩

/-- C6, the claim as written, at its own example: `has_link` does return
`false` on `"I live in the U.S. etc."`, but not because the stoplist
suppressed anything — the generic domain pattern finds no token in that
text at all (`"U.S."` has a single letter after the dot, `"etc."` has
none). -/
theorem stoplist_cex :
    findallDomain "I live in the U.S. etc.".data = [] ∧
      has_links { text := some "I live in the U.S. etc." } = false := by
  exact ⟨by decide, by decide⟩

end BotV2
